import Mathlib

/-!
Verification of the client-side result-aggregation and presentation logic of
the Mortgage-App repository (src/src/App.jsx and the richer variant in
src/unnamed/part_000).  The definitions below are a shallow embedding of the
functions of the richer variant: record construction and append from a batch
response (onDrop, lines 38-52), the error mapping of the catch block
(lines 53-63), removal (removeFile, lines 84-86), bulk clear (clearFiles,
lines 79-82), export serialization (downloadResults, lines 88-109) and the
validation-icon derivation (getValidationIcon, lines 118-127).
JavaScript values that may be `undefined` are embedded as `Option`;
JavaScript string truthiness (empty string is falsy) is embedded explicitly.
Record ids, produced in the source by `Date.now() + Math.random()`, are
embedded as rational draws supplied by the environment, one per created
record.
-/

/-- Backend id-validation verdict: `{ is_valid, id_type, confidence }`. -/
structure IdValidation where
  is_valid : Bool
  id_type : String
  confidence : ℚ
  deriving DecidableEq, Repr

/-- Backend date-validation verdict: `{ is_valid, days_old, max_allowed_days }`. -/
structure DateValidation where
  is_valid : Bool
  days_old : ℤ
  max_allowed_days : ℤ
  deriving DecidableEq, Repr

/-- One entry of a successful `/classify` response body, keyed by original
file name.  Every field may be absent (`undefined`/`null` in the source). -/
structure RawEntry where
  renamed : Option String
  category : Option String
  subcategory : Option String
  text : Option String
  metadata : Option (List (String × String))
  id_validation : Option IdValidation
  date_validation : Option DateValidation
  error : Option String
  deriving DecidableEq, Repr

/-- A processed-file record as built by `onDrop` (part_000 lines 38-50). -/
structure Record where
  id : ℚ
  originalName : String
  renamed : Option String
  category : Option String
  subcategory : Option String
  preview : Option String
  metadata : List (String × String)
  idValidation : Option IdValidation
  dateValidation : Option DateValidation
  hasError : Bool
  error : Option String
  deriving DecidableEq, Repr

/-- JavaScript truthiness of an optional string: `undefined`, `null` and the
empty string are falsy (`data.error ? true : false`, line 48). -/
def jsTruthyStr : Option String → Bool
  | none => false
  | some s => s != ""

/-- The record literal of `onDrop` (lines 39-49): the data-model renaming
`text` to `preview`, `id_validation` to `idValidation`, `date_validation` to
`dateValidation`, `metadata \|\| \x7b\x7d`, and `hasError := data.error ? true : false`.
The id is the `Date.now() + Math.random()` draw for this record, supplied as
an argument. -/
def mkRecord (id : ℚ) (name : String) (data : RawEntry) : Record where
  id := id
  originalName := name
  renamed := data.renamed
  category := data.category
  subcategory := data.subcategory
  preview := data.text
  metadata := data.metadata.getD []
  idValidation := data.id_validation
  dateValidation := data.date_validation
  hasError := jsTruthyStr data.error
  error := data.error

/-- The presentation status picked by `getValidationIcon` (lines 118-127);
the four icons of the source are the four constructors. -/
inductive PresentationStatus
  | Error
  | Validated
  | PartiallyInvalid
  | Pending
  deriving DecidableEq, Repr

/-- `file.idValidation?.is_valid` of the source: `undefined` when the
validation object is absent, its boolean otherwise. -/
def idValidFlag (f : Record) : Option Bool :=
  f.idValidation.map IdValidation.is_valid

/-- `file.dateValidation?.is_valid` of the source. -/
def dateValidFlag (f : Record) : Option Bool :=
  f.dateValidation.map DateValidation.is_valid

/-- The branch structure of `getValidationIcon` on the three values it reads:
`hasError`, then truthiness of either `?.is_valid` (only `some true` is
truthy), then strict equality with `false` (only `some false` passes
`=== false`), else the pending fallback. -/
def statusOf (hasErr : Bool) (iv dv : Option Bool) : PresentationStatus :=
  if hasErr then PresentationStatus.Error
  else if iv.getD false || dv.getD false then PresentationStatus.Validated
  else if iv == some false || dv == some false then PresentationStatus.PartiallyInvalid
  else PresentationStatus.Pending

/-- `getValidationIcon` (lines 118-127), embedded on a record. -/
def getValidationIcon (f : Record) : PresentationStatus :=
  statusOf f.hasError (idValidFlag f) (dateValidFlag f)

/-- A base record with everything absent, used for concrete instances. -/
def recBase : Record where
  id := 0
  originalName := "a.pdf"
  renamed := some "renamed.pdf"
  category := some "ID"
  subcategory := some "Passport"
  preview := some "text"
  metadata := []
  idValidation := none
  dateValidation := none
  hasError := false
  error := none

set_option synthInstance.maxSize 4096 in
/-- C1: the presentation status is a total function into the four statuses,
with precedence: Error iff hasError; else Validated iff some is_valid is
true; else PartiallyInvalid iff some is_valid is false; else Pending. -/
theorem getValidationIcon_precedence (f : Record) :
    (getValidationIcon f = PresentationStatus.Error ↔ f.hasError = true)
    ∧ (f.hasError = false →
        (getValidationIcon f = PresentationStatus.Validated ↔
          (idValidFlag f = some true ∨ dateValidFlag f = some true)))
    ∧ (f.hasError = false →
        ¬(idValidFlag f = some true ∨ dateValidFlag f = some true) →
        (getValidationIcon f = PresentationStatus.PartiallyInvalid ↔
          (idValidFlag f = some false ∨ dateValidFlag f = some false)))
    ∧ (f.hasError = false →
        ¬(idValidFlag f = some true ∨ dateValidFlag f = some true) →
        ¬(idValidFlag f = some false ∨ dateValidFlag f = some false) →
        getValidationIcon f = PresentationStatus.Pending) := by
  have h : ∀ (he : Bool) (iv dv : Option Bool),
      (statusOf he iv dv = PresentationStatus.Error ↔ he = true)
      ∧ (he = false →
          (statusOf he iv dv = PresentationStatus.Validated ↔
            (iv = some true ∨ dv = some true)))
      ∧ (he = false → ¬(iv = some true ∨ dv = some true) →
          (statusOf he iv dv = PresentationStatus.PartiallyInvalid ↔
            (iv = some false ∨ dv = some false)))
      ∧ (he = false → ¬(iv = some true ∨ dv = some true) →
          ¬(iv = some false ∨ dv = some false) →
          statusOf he iv dv = PresentationStatus.Pending) := by decide
  exact h f.hasError (idValidFlag f) (dateValidFlag f)

/-- Concrete instances of C1: id invalid plus date valid is Validated, id
invalid with date absent is PartiallyInvalid, and an error with a valid id
is still Error. -/
theorem getValidationIcon_precedence_witness :
    getValidationIcon
      { recBase with
        idValidation := some ⟨false, "Passport", 1⟩,
        dateValidation := some ⟨true, 3, 90⟩ } = PresentationStatus.Validated
    ∧ getValidationIcon
      { recBase with idValidation := some ⟨false, "Passport", 1⟩ } =
        PresentationStatus.PartiallyInvalid
    ∧ getValidationIcon
      { recBase with
        hasError := true,
        error := some "boom",
        idValidation := some ⟨true, "Passport", 1⟩ } = PresentationStatus.Error := by
  refine ⟨?_, ?_, ?_⟩
  · exact ((getValidationIcon_precedence _).2.1 rfl).mpr (Or.inr rfl)
  · exact ((getValidationIcon_precedence _).2.2.1 rfl (by decide)).mpr (Or.inl rfl)
  · exact (getValidationIcon_precedence _).1.mpr rfl

/-- The clear-all action (`clearFiles`, line 80): `setFiles([])`. -/
def clearFiles : List Record := []

/-- The remove action (`removeFile`, lines 84-86):
`setFiles(prev => prev.filter(f => f.id !== fileId))`. -/
def removeFile (fileId : ℚ) (files : List Record) : List Record :=
  files.filter (fun f => decide (f.id ≠ fileId))

/-- The mapped batch `Object.entries(res.data).map(...)` (lines 38-50): one
record per response entry in iteration order, the entry at offset k taking
the session's id draw number n + k (each record literal evaluates
`Date.now() + Math.random()` once). -/
def mkRecords (draw : ℕ → ℚ) : ℕ → List (String × RawEntry) → List Record
  | _, [] => []
  | n, (name, data) :: rest => mkRecord (draw n) name data :: mkRecords draw (n + 1) rest

/-- The success branch of `onDrop` (line 52):
`setFiles(prev => [...prev, ...newFiles])`. -/
def appendResponse (draw : ℕ → ℚ) (n : ℕ) (files : List Record)
    (resp : List (String × RawEntry)) : List Record :=
  files ++ mkRecords draw n resp

/-- A sequence of successful `onDrop` calls, threading the collection and
the position in the session's id-draw sequence. -/
def appendAll (draw : ℕ → ℚ) :
    List Record × ℕ → List (List (String × RawEntry)) → List Record × ℕ
  | st, [] => st
  | (files, n), r :: rs => appendAll draw (appendResponse draw n files r, n + r.length) rs

theorem mkRecords_length (draw : ℕ → ℚ) :
    ∀ (n : ℕ) (resp : List (String × RawEntry)),
      (mkRecords draw n resp).length = resp.length := by
  intro n resp
  induction resp generalizing n with
  | nil => rfl
  | cons hd tl ih =>
    obtain ⟨name, data⟩ := hd
    simp [mkRecords, ih]

theorem mkRecords_map_originalName (draw : ℕ → ℚ) :
    ∀ (n : ℕ) (resp : List (String × RawEntry)),
      (mkRecords draw n resp).map Record.originalName = resp.map Prod.fst := by
  intro n resp
  induction resp generalizing n with
  | nil => rfl
  | cons hd tl ih =>
    obtain ⟨name, data⟩ := hd
    simp [mkRecords, mkRecord, ih]

theorem appendAll_map_originalName (draw : ℕ → ℚ) :
    ∀ (rs : List (List (String × RawEntry))) (files : List Record) (n : ℕ),
      (appendAll draw (files, n) rs).1.map Record.originalName =
        files.map Record.originalName ++ (rs.map (fun r => r.map Prod.fst)).flatten := by
  intro rs
  induction rs with
  | nil => intro files n; simp [appendAll]
  | cons r rs ih =>
    intro files n
    simp [appendAll, appendResponse, ih, mkRecords_map_originalName]

/-- C2: append maps each response entry to a record by the data-model
renaming (text to preview, id_validation to idValidation, date_validation to
dateValidation, error truthiness to hasError with the error kept, metadata
defaulting to empty when absent), appends the new records at the end of the
collection in response iteration order, never drops or rejects an entry
(one record per entry, even with every field absent), and across any
sequence of appends the collection order is the concatenation of the
responses' iteration orders in call order. -/
theorem appendResponse_spec (draw : ℕ → ℚ) :
    (∀ (i : ℚ) (name : String) (d : RawEntry),
      (mkRecord i name d).originalName = name
      ∧ (mkRecord i name d).preview = d.text
      ∧ (mkRecord i name d).idValidation = d.id_validation
      ∧ (mkRecord i name d).dateValidation = d.date_validation
      ∧ (mkRecord i name d).renamed = d.renamed
      ∧ (mkRecord i name d).category = d.category
      ∧ (mkRecord i name d).subcategory = d.subcategory
      ∧ (mkRecord i name d).metadata = d.metadata.getD []
      ∧ (mkRecord i name d).error = d.error
      ∧ ((mkRecord i name d).hasError = true ↔ ∃ s, d.error = some s ∧ s ≠ ""))
    ∧ (∀ (n : ℕ) (files : List Record) (resp : List (String × RawEntry)),
        appendResponse draw n files resp = files ++ mkRecords draw n resp
        ∧ (mkRecords draw n resp).length = resp.length
        ∧ (mkRecords draw n resp).map Record.originalName = resp.map Prod.fst)
    ∧ (∀ rs : List (List (String × RawEntry)),
        (appendAll draw ([], 0) rs).1.map Record.originalName =
          (rs.map (fun r => r.map Prod.fst)).flatten) := by
  refine ⟨?_, ?_, ?_⟩
  · intro i name d
    refine ⟨rfl, rfl, rfl, rfl, rfl, rfl, rfl, rfl, rfl, ?_⟩
    cases h : d.error with
    | none => simp [mkRecord, jsTruthyStr, h]
    | some s => simp [mkRecord, jsTruthyStr, h]
  · intro n files resp
    exact ⟨rfl, mkRecords_length draw n resp, mkRecords_map_originalName draw n resp⟩
  · intro rs
    simpa using appendAll_map_originalName draw rs [] 0

/-- Concrete record with id 1. -/
def recA : Record := { recBase with id := 1 }

/-- Concrete record with id 2. -/
def recB : Record := { recBase with id := 2, originalName := "b.png" }

/-- C9: removing an absent id leaves the collection unchanged; removing a
present id strictly shrinks the collection, keeps exactly the records with
other ids, and preserves their relative order (the result is a sublist of
the input). -/
theorem removeFile_spec (i : ℚ) (files : List Record) :
    ((∀ f ∈ files, f.id ≠ i) → removeFile i files = files)
    ∧ ((∃ f ∈ files, f.id = i) → (removeFile i files).length < files.length)
    ∧ (∀ f ∈ removeFile i files, f ∈ files ∧ f.id ≠ i)
    ∧ (∀ f ∈ files, f.id ≠ i → f ∈ removeFile i files)
    ∧ List.Sublist (removeFile i files) files := by
  refine ⟨?_, ?_, ?_, ?_, ?_⟩
  · intro h
    refine List.filter_eq_self.mpr ?_
    intro f hf
    simpa using h f hf
  · intro h
    obtain ⟨f, hf, hid⟩ := h
    refine List.length_filter_lt_length_iff_exists.mpr ?_
    exact ⟨f, hf, by simp [hid]⟩
  · intro f hf
    have hm := List.mem_filter.mp hf
    exact ⟨hm.1, by simpa using hm.2⟩
  · intro f hf hid
    exact List.mem_filter.mpr ⟨hf, by simpa using hid⟩
  · exact List.filter_sublist files

/-- Concrete instance of C9: removing an id not in the collection changes
nothing, removing a present id shrinks the collection. -/
theorem removeFile_spec_witness :
    removeFile 5 [recA, recB] = [recA, recB]
    ∧ (removeFile 1 [recA, recB]).length < 2 := by
  constructor
  · exact (removeFile_spec 5 [recA, recB]).1 (by decide)
  · exact (removeFile_spec 1 [recA, recB]).2.1 ⟨recA, by decide, by decide⟩

/-- C10: removal is idempotent, deletes every record whose id equals the
argument (including duplicates), and keeps the survivors in their relative
order. -/
theorem removeFile_idempotent (i : ℚ) (files : List Record) :
    removeFile i (removeFile i files) = removeFile i files
    ∧ (∀ f ∈ removeFile i files, f.id ≠ i)
    ∧ List.Sublist (removeFile i files) files := by
  refine ⟨?_, ?_, List.filter_sublist files⟩
  · refine List.filter_eq_self.mpr ?_
    intro f hf
    exact (List.mem_filter.mp hf).2
  · intro f hf
    simpa using (List.mem_filter.mp hf).2

/-- Concrete instance of C10: removing id 1 twice from a two-record
collection equals removing it once. -/
theorem removeFile_idempotent_witness :
    removeFile 1 (removeFile 1 [recA, recB]) = removeFile 1 [recA, recB] :=
  (removeFile_idempotent 1 [recA, recB]).1

/-- The axios request timeout configured at line 35 of the source. -/
def requestTimeoutMs : ℕ := 30000

/-- The failure value observed in the catch block (lines 53-63): `err.code`,
`err.response?.status` (absent when there was no response) and `err.message`. -/
structure AxiosErr where
  code : Option String
  status : Option ℕ
  message : String
  deriving DecidableEq, Repr

/-- The normalized gateway error taxonomy of the spec; the four constructors
are the four branches of the catch block. -/
inductive GatewayError
  | Timeout
  | UnsupportedFormat
  | ServerUnavailable
  | Other (message : String)
  deriving DecidableEq, Repr

/-- `err.response?.status >= 500` of the source: false when the status is
absent (undefined compares false). -/
def statusAtLeast500 (st : Option ℕ) : Bool :=
  match st with
  | none => false
  | some s => decide (500 ≤ s)

/-- The branch structure of the catch block (lines 55-63), classified into
the taxonomy: err.code ECONNABORTED first, then status 422, then
status >= 500, else the catch-all carrying the message. -/
def mapGatewayError (e : AxiosErr) : GatewayError :=
  if e.code = some "ECONNABORTED" then GatewayError.Timeout
  else if e.status = some 422 then GatewayError.UnsupportedFormat
  else if statusAtLeast500 e.status then GatewayError.ServerUnavailable
  else GatewayError.Other e.message

/-- The user-visible message set by the same branches of the catch block. -/
def errorMessage (e : AxiosErr) : String :=
  if e.code = some "ECONNABORTED" then
    "Request timeout - please try with smaller files or fewer files at once"
  else if e.status = some 422 then
    "Invalid file format - please upload PDF, PNG, JPG, or JPEG files"
  else if statusAtLeast500 e.status then
    "Server error - please check if the backend is running"
  else
    "Classification failed: " ++ e.message

/-- C4: the timeout limit is 30 seconds and every failed submission maps
deterministically to exactly one normalized error: timeout first, then
HTTP 422, then any status of at least 500, else the catch-all with the
message. -/
theorem mapGatewayError_spec :
    requestTimeoutMs = 30000
    ∧ (∀ e : AxiosErr, e.code = some "ECONNABORTED" →
        mapGatewayError e = GatewayError.Timeout)
    ∧ (∀ e : AxiosErr, e.code ≠ some "ECONNABORTED" → e.status = some 422 →
        mapGatewayError e = GatewayError.UnsupportedFormat)
    ∧ (∀ (e : AxiosErr) (s : ℕ), e.code ≠ some "ECONNABORTED" → e.status = some s →
        500 ≤ s → mapGatewayError e = GatewayError.ServerUnavailable)
    ∧ (∀ e : AxiosErr, e.code ≠ some "ECONNABORTED" →
        (∀ s : ℕ, e.status = some s → s ≠ 422 ∧ s < 500) →
        mapGatewayError e = GatewayError.Other e.message) := by
  refine ⟨rfl, ?_, ?_, ?_, ?_⟩
  · intro e h
    simp [mapGatewayError, h]
  · intro e hc hs
    simp [mapGatewayError, hc, hs]
  · intro e s hc hs h500
    have h422 : s ≠ 422 := by omega
    simp [mapGatewayError, hc, h422, statusAtLeast500, hs, h500]
  · intro e hc hother
    cases hst : e.status with
    | none => simp [mapGatewayError, hc, hst, statusAtLeast500]
    | some s =>
      obtain ⟨h1, h2⟩ := hother s hst
      have h500 : ¬ (500 ≤ s) := by omega
      simp [mapGatewayError, hc, hst, statusAtLeast500, h1, h500]

/-- Simulated timeout failure. -/
def errTimeout : AxiosErr :=
  { code := some "ECONNABORTED", status := none, message := "timeout of 30000ms exceeded" }

/-- Simulated HTTP 422 failure. -/
def err422 : AxiosErr :=
  { code := none, status := some 422, message := "Request failed with status code 422" }

/-- Simulated HTTP 503 failure. -/
def err503 : AxiosErr :=
  { code := none, status := some 503, message := "Request failed with status code 503" }

/-- Simulated plain network failure. -/
def errNetwork : AxiosErr := { code := none, status := none, message := "Network Error" }

/-- Concrete instances of C4: a timeout, an HTTP 422, an HTTP 503 and a
plain network failure map to the four taxonomy members. -/
theorem mapGatewayError_spec_witness :
    mapGatewayError errTimeout = GatewayError.Timeout
    ∧ mapGatewayError err422 = GatewayError.UnsupportedFormat
    ∧ mapGatewayError err503 = GatewayError.ServerUnavailable
    ∧ mapGatewayError errNetwork = GatewayError.Other "Network Error" := by
  refine ⟨?_, ?_, ?_, ?_⟩
  · exact mapGatewayError_spec.2.1 errTimeout rfl
  · exact mapGatewayError_spec.2.2.1 err422 (by simp [err422]) rfl
  · exact mapGatewayError_spec.2.2.2.1 err503 503 (by simp [err503]) rfl (by norm_num)
  · exact mapGatewayError_spec.2.2.2.2 errNetwork (by simp [errNetwork])
      (by intro s h; simp [errNetwork] at h)

/-- The transient session state of the component (lines 18-21): the record
collection, the single error slot and the loading flag. -/
structure SessionState where
  files : List Record
  error : Option String
  loading : Bool
  deriving DecidableEq, Repr

/-- The net state transition of one completed `onDrop` call (lines 23-67):
`setLoading(true)` and `setError(null)` run at entry; on success the mapped
records are appended to the collection and the error stays cleared; on
failure only the mapped error message is recorded; the `finally` block
clears the loading flag. -/
def onDropComplete (draw : ℕ → ℚ) (n : ℕ) (s : SessionState)
    (outcome : Except AxiosErr (List (String × RawEntry))) : SessionState :=
  match outcome with
  | Except.ok resp =>
      { files := appendResponse draw n s.files resp, error := none, loading := false }
  | Except.error e =>
      { files := s.files, error := some (errorMessage e), loading := false }

/-- C5: on failure the collection is unchanged and the mapped message is the
single held error, whatever error was held before; on success the response
is appended and the error slot is empty, so no stale error remains; the
error slot being an optional single string, at most one message is ever
held. -/
theorem onDropComplete_spec (draw : ℕ → ℚ) (n : ℕ) (s : SessionState) :
    (∀ e : AxiosErr,
      (onDropComplete draw n s (Except.error e)).files = s.files
      ∧ (onDropComplete draw n s (Except.error e)).error = some (errorMessage e)
      ∧ (onDropComplete draw n s (Except.error e)).loading = false)
    ∧ (∀ resp : List (String × RawEntry),
      (onDropComplete draw n s (Except.ok resp)).files = s.files ++ mkRecords draw n resp
      ∧ (onDropComplete draw n s (Except.ok resp)).error = none
      ∧ (onDropComplete draw n s (Except.ok resp)).loading = false) :=
  ⟨fun _ => ⟨rfl, rfl, rfl⟩, fun _ => ⟨rfl, rfl, rfl⟩⟩

/-- Concrete instance of C5: a 503 failure on a session holding a stale
error overwrites it with the server-error message and keeps the collection;
a success on the same session clears the error. -/
theorem onDropComplete_spec_witness :
    (onDropComplete (fun k => (k : ℚ)) 0
        { files := [recA], error := some "old", loading := true }
        (Except.error err503)).error =
      some "Server error - please check if the backend is running"
    ∧ (onDropComplete (fun k => (k : ℚ)) 0
        { files := [recA], error := some "old", loading := true }
        (Except.error err503)).files = [recA]
    ∧ (onDropComplete (fun k => (k : ℚ)) 0
        { files := [recA], error := some "old", loading := true }
        (Except.ok [])).error = none := by
  refine ⟨?_, ?_, ?_⟩
  · have h := ((onDropComplete_spec (fun k => (k : ℚ)) 0
      { files := [recA], error := some "old", loading := true }).1 err503).2.1
    rw [h]
    simp [errorMessage, err503, statusAtLeast500]
  · exact ((onDropComplete_spec (fun k => (k : ℚ)) 0
      { files := [recA], error := some "old", loading := true }).1 err503).1
  · exact ((onDropComplete_spec (fun k => (k : ℚ)) 0
      { files := [recA], error := some "old", loading := true }).2 []).2.1

/-- A dropped file as the dropzone sees it: name, declared MIME type and
size in bytes. -/
structure FileBlob where
  name : String
  mime : String
  size : ℕ
  deriving DecidableEq, Repr

/-- The per-file size ceiling configured at line 76: `10 * 1024 * 1024`. -/
def maxFileSize : ℕ := 10 * 1024 * 1024

/-- Modelled from the spec: the accept patterns configured at lines 72-75
match a declared MIME type when it is application/pdf or any image type;
the matching itself happens inside the react-dropzone library, which is not
part of this repository. -/
def mimeAccepted (mime : String) : Bool :=
  mime == "application/pdf" || List.isPrefixOf "image/".data mime.data

/-- Modelled from the spec: the client-side exclusion react-dropzone applies
with the configuration of lines 69-77 (accept patterns plus maxSize);
`onDrop` then receives only the accepted files, in drop order. -/
def dropzoneAccepted (dropped : List FileBlob) : List FileBlob :=
  dropped.filter (fun f => mimeAccepted f.mime && decide (f.size ≤ maxFileSize))

/-- The request made by `onDrop` (lines 27-36): a POST is always issued,
carrying exactly the accepted files in order as the files parts; there is
no emptiness check before `axios.post`. -/
def onDropRequest (acceptedFiles : List FileBlob) : Option (List FileBlob) :=
  some acceptedFiles

/-- An oversized PDF: accepted MIME type, one byte over the 10 MiB ceiling. -/
def bigPdf : FileBlob :=
  { name := "big.pdf", mime := "application/pdf", size := 10 * 1024 * 1024 + 1 }

/-- A small PNG within every precondition. -/
def okPng : FileBlob := { name := "scan.png", mime := "image/png", size := 1024 }

/-- Counterexample to C8: when every dropped file is excluded (here a single
oversized PDF), `onDrop` still issues a network request, with an empty file
list, instead of skipping the submission. -/
theorem allExcluded_still_requests :
    dropzoneAccepted [bigPdf] = []
    ∧ onDropRequest (dropzoneAccepted [bigPdf]) ≠ none := by
  have h : (mimeAccepted bigPdf.mime && decide (bigPdf.size ≤ maxFileSize)) = false := by
    have : ¬ (bigPdf.size ≤ maxFileSize) := by norm_num [bigPdf, maxFileSize]
    simp [this]
  constructor
  · simp [dropzoneAccepted, List.filter, h]
  · simp [onDropRequest]

/-- C8 amended: the dropzone exclusion keeps exactly the files whose MIME
type is accepted and whose size is within the ceiling, preserving drop
order, and excluded files never reach the request; but the request itself
is issued unconditionally, even when the accepted list is empty. -/
theorem dropzoneAccepted_spec (dropped : List FileBlob) :
    (∀ f ∈ dropzoneAccepted dropped,
        f ∈ dropped ∧ mimeAccepted f.mime = true ∧ f.size ≤ maxFileSize)
    ∧ (∀ f ∈ dropped, mimeAccepted f.mime = true → f.size ≤ maxFileSize →
        f ∈ dropzoneAccepted dropped)
    ∧ List.Sublist (dropzoneAccepted dropped) dropped
    ∧ onDropRequest (dropzoneAccepted dropped) = some (dropzoneAccepted dropped) := by
  refine ⟨?_, ?_, List.filter_sublist dropped, rfl⟩
  · intro f hf
    have hm := List.mem_filter.mp hf
    have hb := hm.2
    simp only [Bool.and_eq_true, decide_eq_true_eq] at hb
    exact ⟨hm.1, hb.1, hb.2⟩
  · intro f hf h1 h2
    refine List.mem_filter.mpr ⟨hf, ?_⟩
    simp [h1, h2]

/-- Concrete instance of the amended C8: dropping an oversized PDF together
with a small PNG, the PNG is accepted and the oversized PDF never reaches
the request. -/
theorem dropzoneAccepted_spec_witness :
    okPng ∈ dropzoneAccepted [bigPdf, okPng]
    ∧ ∀ f ∈ dropzoneAccepted [bigPdf, okPng], f.size ≤ maxFileSize := by
  constructor
  · exact (dropzoneAccepted_spec [bigPdf, okPng]).2.1 okPng (by simp)
      (by decide) (by norm_num [okPng, maxFileSize])
  · intro f hf
    exact ((dropzoneAccepted_spec [bigPdf, okPng]).1 f hf).2.2

/-- The component view state touched by removal and preview (lines 18-21):
the collection plus `selectedFile`, which stores the previewed record value
itself (`setSelectedFile(file)`, line 299); the preview modal renders from
this stored value (lines 323-350). -/
structure UIState where
  files : List Record
  selectedFile : Option Record
  deriving DecidableEq, Repr

/-- `removeFile` as it acts on the whole view state (lines 84-86): only the
collection is filtered; `selectedFile` is not touched by removal. -/
def removeFileUI (fileId : ℚ) (s : UIState) : UIState :=
  { files := removeFile fileId s.files, selectedFile := s.selectedFile }

/-- Counterexample to C7: with recA previewed, removing recA by its id
leaves the preview reference set, and it refers to a record that is no
longer in the collection, so the reference is neither absent nor a live
member: it dangles instead of being cleared. -/
theorem removeFileUI_dangles :
    ¬ ((removeFileUI 1 { files := [recA], selectedFile := some recA }).selectedFile = none
       ∨ ∃ f ∈ (removeFileUI 1 { files := [recA], selectedFile := some recA }).files,
           (removeFileUI 1 { files := [recA], selectedFile := some recA }).selectedFile
             = some f) := by
  intro h
  rcases h with h | ⟨f, hf, hsel⟩
  · exact Option.noConfusion h
  · have hne : f.id ≠ (1 : ℚ) := by
      simpa using (List.mem_filter.mp hf).2
    have hfa : recA = f := by
      simpa [removeFileUI] using hsel
    exact hne (by rw [← hfa]; simp [recA])

/-- C7 amended: removal never touches the preview reference; in particular
removing the currently previewed record leaves the preview holding the
removed record's retained value while the record itself is gone from the
collection. -/
theorem removeFileUI_preview_retained (fileId : ℚ) (s : UIState) :
    (removeFileUI fileId s).selectedFile = s.selectedFile
    ∧ (∀ r : Record, s.selectedFile = some r → r.id = fileId →
        r ∉ (removeFileUI fileId s).files) := by
  refine ⟨rfl, ?_⟩
  intro r _hr hid hmem
  have hb := (List.mem_filter.mp hmem).2
  simp [hid] at hb

/-- Concrete instance of the amended C7: removing previewed recA keeps the
reference to recA while recA leaves the collection. -/
theorem removeFileUI_preview_retained_witness :
    recA ∉ (removeFileUI 1 { files := [recA, recB], selectedFile := some recA }).files :=
  (removeFileUI_preview_retained 1
    { files := [recA, recB], selectedFile := some recA }).2 recA rfl rfl

/-- A response entry with every field absent. -/
def emptyEntry : RawEntry where
  renamed := none
  category := none
  subcategory := none
  text := none
  metadata := none
  id_validation := none
  date_validation := none
  error := none

/-- A user-visible mutation of the collection: a successful batch append
(the onDrop success path), a single removal, or the clear-all action. -/
inductive Op
  | append (resp : List (String × RawEntry))
  | remove (i : ℚ)
  | clear

/-- One step of the session on the collection and the position in the
session's id-draw sequence: append consumes one `Date.now() + Math.random()`
draw per response entry, remove and clear consume none. -/
def stepOp (draw : ℕ → ℚ) : List Record × ℕ → Op → List Record × ℕ
  | (files, n), Op.append resp => (appendResponse draw n files resp, n + resp.length)
  | (files, n), Op.remove i => (removeFile i files, n)
  | (_files, n), Op.clear => (clearFiles, n)

/-- Run a sequence of operations from the empty session; the state after any
observation point is the run of the operations performed so far. -/
def runOps (draw : ℕ → ℚ) (ops : List Op) : List Record × ℕ :=
  List.foldl (stepOp draw) ([], 0) ops

/-- Ids of live records are pairwise distinct and all come from draws
already consumed. -/
def IdsInv (draw : ℕ → ℚ) (st : List Record × ℕ) : Prop :=
  (st.1.map Record.id).Nodup ∧ ∀ f ∈ st.1, ∃ k, k < st.2 ∧ f.id = draw k

theorem mkRecord_id (i : ℚ) (name : String) (d : RawEntry) :
    (mkRecord i name d).id = i := rfl

theorem mkRecords_ids_bound (draw : ℕ → ℚ) :
    ∀ (n : ℕ) (resp : List (String × RawEntry)) (f : Record),
      f ∈ mkRecords draw n resp → ∃ k, n ≤ k ∧ k < n + resp.length ∧ f.id = draw k := by
  intro n resp
  induction resp generalizing n with
  | nil => intro f hf; simp [mkRecords] at hf
  | cons hd tl ih =>
    obtain ⟨name, data⟩ := hd
    intro f hf
    simp only [mkRecords] at hf
    rcases List.mem_cons.mp hf with h | h
    · refine ⟨n, le_refl n, by simp, ?_⟩
      rw [h, mkRecord_id]
    · obtain ⟨k, h1, h2, h3⟩ := ih (n + 1) f h
      exact ⟨k, by omega, by simp only [List.length_cons]; omega, h3⟩

theorem mkRecords_ids_nodup (draw : ℕ → ℚ) (hinj : Function.Injective draw) :
    ∀ (n : ℕ) (resp : List (String × RawEntry)),
      ((mkRecords draw n resp).map Record.id).Nodup := by
  intro n resp
  induction resp generalizing n with
  | nil => simp [mkRecords]
  | cons hd tl ih =>
    obtain ⟨name, data⟩ := hd
    simp only [mkRecords, List.map_cons, mkRecord_id]
    refine List.nodup_cons.mpr ⟨?_, ih (n + 1)⟩
    intro hmem
    obtain ⟨g, hg, hgid⟩ := List.mem_map.mp hmem
    obtain ⟨k, h1, _h2, h3⟩ := mkRecords_ids_bound draw (n + 1) tl g hg
    have hdk : draw k = draw n := by rw [← h3, hgid]
    have := hinj hdk
    omega

theorem stepOp_preserves (draw : ℕ → ℚ) (hinj : Function.Injective draw)
    (st : List Record × ℕ) (op : Op) (h : IdsInv draw st) :
    IdsInv draw (stepOp draw st op) := by
  obtain ⟨files, n⟩ := st
  obtain ⟨hnd, hbound⟩ := h
  cases op with
  | append resp =>
    constructor
    · simp only [stepOp, appendResponse, List.map_append]
      refine List.Nodup.append hnd (mkRecords_ids_nodup draw hinj n resp) ?_
      intro a ha hb
      obtain ⟨f, hf, hfid⟩ := List.mem_map.mp ha
      obtain ⟨g, hg, hgid⟩ := List.mem_map.mp hb
      obtain ⟨k, hk, hkid⟩ := hbound f hf
      obtain ⟨j, hj1, _hj2, hjid⟩ := mkRecords_ids_bound draw n resp g hg
      have hkj : draw k = draw j := by rw [← hkid, hfid, ← hgid, hjid]
      have := hinj hkj
      omega
    · intro f hf
      simp only [stepOp, appendResponse] at hf ⊢
      rcases List.mem_append.mp hf with h | h
      · obtain ⟨k, hk, hkid⟩ := hbound f h
        exact ⟨k, by omega, hkid⟩
      · obtain ⟨k, h1, h2, h3⟩ := mkRecords_ids_bound draw n resp f h
        exact ⟨k, by omega, h3⟩
  | remove i =>
    constructor
    · have hsub : List.Sublist ((removeFile i files).map Record.id) (files.map Record.id) :=
        List.Sublist.map Record.id (List.filter_sublist files)
      exact List.Nodup.sublist hsub hnd
    · intro f hf
      simp only [stepOp] at hf ⊢
      exact hbound f (List.mem_of_mem_filter hf)
  | clear =>
    refine ⟨by simp [stepOp, clearFiles], ?_⟩
    intro f hf
    simp [stepOp, clearFiles] at hf

theorem foldl_stepOp_preserves (draw : ℕ → ℚ) (hinj : Function.Injective draw) :
    ∀ (ops : List Op) (st : List Record × ℕ), IdsInv draw st →
      IdsInv draw (List.foldl (stepOp draw) st ops) := by
  intro ops
  induction ops with
  | nil => intro st h; simpa using h
  | cons op ops ih =>
    intro st h
    simp only [List.foldl_cons]
    exact ih _ (stepOp_preserves draw hinj st op h)

/-- Counterexample to C6: the source draws each id as
`Date.now() + Math.random()`, which nothing forces to be distinct; with the
draws all equal (same millisecond, repeated random value) a single append of
two entries produces two live records with the same id. -/
theorem runOps_ids_clash :
    ¬ (((runOps (fun _ => (0 : ℚ))
          [Op.append [("a.pdf", emptyEntry), ("b.png", emptyEntry)]]).1.map
            Record.id).Nodup) := by
  simp [runOps, stepOp, appendResponse, mkRecords, mkRecord]

/-- C6 amended: provided the `Date.now() + Math.random()` draws are pairwise
distinct across the session (an injective draw sequence), every sequence of
append, remove and clear operations keeps the live record ids pairwise
distinct at every observation point (the run of every operation prefix),
with each id coming from a fresh never-reused draw; the code itself does not
enforce distinctness of the draws. -/
theorem runOps_ids_nodup (draw : ℕ → ℚ) (hinj : Function.Injective draw)
    (ops : List Op) : ((runOps draw ops).1.map Record.id).Nodup := by
  have h0 : IdsInv draw ([], 0) := by
    refine ⟨by simp, ?_⟩
    intro f hf
    simp at hf
  exact (foldl_stepOp_preserves draw hinj ops ([], 0) h0).1

/-- Concrete instance of the amended C6: with the injective draw sequence
0, 1, 2, ... an append of two entries, a removal and another append leave
pairwise distinct ids. -/
theorem runOps_ids_nodup_witness :
    ((runOps (fun k => (k : ℚ))
        [Op.append [("a.pdf", emptyEntry), ("b.png", emptyEntry)],
         Op.remove 0,
         Op.append [("c.pdf", emptyEntry)]]).1.map Record.id).Nodup :=
  runOps_ids_nodup (fun k => (k : ℚ)) Nat.cast_injective _

/-- The nested validation object of one export element (lines 95-98). -/
structure ExportValidation where
  id_validation : Option IdValidation
  date_validation : Option DateValidation
  deriving DecidableEq, Repr

/-- One element of the export array (lines 89-99): exactly the six fields of
the object literal; there is no preview field. -/
structure ExportEntry where
  original_name : String
  renamed : Option String
  category : Option String
  subcategory : Option String
  metadata : List (String × String)
  validation : ExportValidation
  deriving DecidableEq, Repr

/-- The per-record mapping inside `downloadResults` (lines 89-99). -/
def exportEntry (f : Record) : ExportEntry where
  original_name := f.originalName
  renamed := f.renamed
  category := f.category
  subcategory := f.subcategory
  metadata := f.metadata
  validation := { id_validation := f.idValidation, date_validation := f.dateValidation }

/-- The export array `files.map(...)` of `downloadResults` (line 89). -/
def downloadResults (files : List Record) : List ExportEntry :=
  files.map exportEntry

/-- `s.split(c)[0]` of JavaScript for a one-character separator: the
characters before the first occurrence (line 106 applies it with T to the
ISO timestamp). -/
def jsSplitHead (sep : Char) (chars : List Char) : List Char :=
  chars.takeWhile (fun c => c != sep)

/-- The suggested download filename (line 106): the fixed prefix, then the
date part of `new Date().toISOString()` (everything before the T), then the
.json extension. -/
def suggestedFilename (isoNow : List Char) : List Char :=
  "mortgage_classification_results_".data ++ jsSplitHead 'T' isoNow ++ ".json".data

theorem jsSplitHead_append (sep : Char) (date rest : List Char)
    (h : ∀ c ∈ date, c ≠ sep) :
    jsSplitHead sep (date ++ sep :: rest) = date := by
  induction date with
  | nil => simp [jsSplitHead, List.takeWhile]
  | cons c cs ih =>
    have hc : c ≠ sep := h c (List.mem_cons_self c cs)
    have hcs : ∀ x ∈ cs, x ≠ sep := fun x hx => h x (List.mem_cons_of_mem c hx)
    have hpa : (c != sep) = true := by simpa using hc
    simp only [List.cons_append, jsSplitHead] at ih ⊢
    rw [List.takeWhile_cons, if_pos hpa, ih hcs]

/-- C3: the export array has one element per record in collection order,
the element for a record carries the record's original name unchanged in
its original_name field, the element is independent of the preview text
(preview is excluded from export), and the suggested filename is the fixed
prefix followed by the date part (YYYY-MM-DD) of the current ISO timestamp
and the .json extension. -/
theorem downloadResults_spec (files : List Record) :
    (downloadResults files).length = files.length
    ∧ (∀ k : ℕ, (downloadResults files)[k]? = (files[k]?).map exportEntry)
    ∧ (∀ k : ℕ, ((downloadResults files)[k]?).map ExportEntry.original_name =
        (files[k]?).map Record.originalName)
    ∧ (∀ (f : Record) (p : Option String), exportEntry { f with preview := p } = exportEntry f)
    ∧ (∀ f : Record, (exportEntry f).original_name = f.originalName
        ∧ (exportEntry f).validation =
          { id_validation := f.idValidation, date_validation := f.dateValidation })
    ∧ (∀ (date rest : List Char), (∀ c ∈ date, c ≠ 'T') →
        suggestedFilename (date ++ 'T' :: rest) =
          "mortgage_classification_results_".data ++ date ++ ".json".data) := by
  refine ⟨by simp [downloadResults], ?_, ?_, ?_, ?_, ?_⟩
  · intro k
    simp [downloadResults]
  · intro k
    simp [downloadResults]
    cases files[k]? with
    | none => rfl
    | some f => rfl
  · intro f p
    rfl
  · intro f
    exact ⟨rfl, rfl⟩
  · intro date rest h
    simp only [suggestedFilename, jsSplitHead_append 'T' date rest h]

/-- Concrete instance of C3: a two-record collection exports two elements
whose original names match in order, and the filename built from a concrete
ISO timestamp is the fixed prefix plus the date plus .json. -/
theorem downloadResults_spec_witness :
    (downloadResults [recA, recB]).length = 2
    ∧ ((downloadResults [recA, recB])[1]?).map ExportEntry.original_name = some "b.png"
    ∧ suggestedFilename ("2026-10-12".data ++ 'T' :: "00:00:00.000Z".data) =
        "mortgage_classification_results_".data ++ "2026-10-12".data ++ ".json".data := by
  refine ⟨(downloadResults_spec [recA, recB]).1, ?_, ?_⟩
  · have h := (downloadResults_spec [recA, recB]).2.2.1 1
    rw [h]
    rfl
  · exact (downloadResults_spec []).2.2.2.2.2 "2026-10-12".data "00:00:00.000Z".data
      (by decide)

/-- Concrete instance of C2: two successive one-entry appends leave the two
records in call order, and an entry with every field absent still yields a
record, with empty metadata and no error flag. -/
theorem appendResponse_spec_witness :
    (appendAll (fun k => (k : ℚ)) ([], 0)
        [[("a.pdf", emptyEntry)], [("b.png", emptyEntry)]]).1.map Record.originalName =
      ["a.pdf", "b.png"]
    ∧ (mkRecord 7 "c.pdf" emptyEntry).metadata = []
    ∧ (mkRecord 7 "c.pdf" emptyEntry).hasError = false := by
  refine ⟨?_, ?_, ?_⟩
  · have h := (appendResponse_spec (fun k => (k : ℚ))).2.2
      [[("a.pdf", emptyEntry)], [("b.png", emptyEntry)]]
    rw [h]
    rfl
  · have h := ((appendResponse_spec (fun k => (k : ℚ))).1 7 "c.pdf" emptyEntry).2.2.2.2.2.2.2.1
    rw [h]
    rfl
  · have hiff := ((appendResponse_spec (fun k => (k : ℚ))).1 7 "c.pdf" emptyEntry).2.2.2.2.2.2.2.2.2
    have hne : ¬ ((mkRecord 7 "c.pdf" emptyEntry).hasError = true) := by
      rw [hiff]
      rintro ⟨s, hs, _⟩
      exact Option.noConfusion hs
    simpa using hne
